import Mathlib

/-!
Shallow embedding of `src/findiff/vector.py` (module `findiff.vector`):
the vector-calculus composition layer building Gradient, Divergence, Curl
and Laplacian operators out of per-axis finite-difference differentiators.

Numpy `ndarray`s are modelled as a shape (list of axis lengths) together
with flat row-major data over `Int`; the external single-axis
finite-difference engine (`findiff.diff.FinDiff`) is kept opaque: its
constructor argument tuple is recorded as data and its application is a
parameter of each application function.
-/

set_option autoImplicit false

/-- A numpy `ndarray`: a shape (list of axis lengths, head = leading axis)
and flat row-major data. -/
structure NDArray where
  shape : List Nat
  data : List Int
  deriving Repr, DecidableEq

instance : Inhabited NDArray := ⟨⟨[], []⟩⟩

/-- `data` holds exactly one entry per grid point. -/
def NDArray.wf (a : NDArray) : Prop := a.data.length = a.shape.prod

/-- `np.zeros(s)`. -/
def NDArray.zeros (s : List Nat) : NDArray := ⟨s, List.replicate s.prod 0⟩

/-- `np.zeros_like(a)`. -/
def NDArray.zerosLike (a : NDArray) : NDArray := NDArray.zeros a.shape

/-- Elementwise `a + b` (shapes agree in every use below). -/
def NDArray.add (a b : NDArray) : NDArray :=
  ⟨a.shape, a.data.zipWith (· + ·) b.data⟩

/-- Elementwise `a - b` (shapes agree in every use below). -/
def NDArray.sub (a b : NDArray) : NDArray :=
  ⟨a.shape, a.data.zipWith (· - ·) b.data⟩

/-- `a[k]`: the `k`-th component along the leading axis. -/
def NDArray.getComp (a : NDArray) (k : Nat) : NDArray :=
  match a.shape with
  | [] => default
  | _ :: rest => ⟨rest, (a.data.drop (k * rest.prod)).take rest.prod⟩

/-- `a[k] = v` (as produced by an in-place update of the `k`-th slice). -/
def NDArray.setComp (a : NDArray) (k : Nat) (v : NDArray) : NDArray :=
  match a.shape with
  | [] => a
  | _ :: rest =>
    ⟨a.shape, a.data.take (k * rest.prod) ++ v.data ++ a.data.drop ((k + 1) * rest.prod)⟩

/-- `np.array(l)` for a python list `l` of equal-shaped arrays: stack along
a new leading axis. -/
def NDArray.stack (l : List NDArray) : NDArray :=
  ⟨l.length :: (l.headD default).shape, (l.map NDArray.data).flatten⟩

/-- The coordinate description accepted by the `coords` keyword: either a
single numpy array or a python sequence of per-axis coordinate arrays. -/
inductive Coords where
  | array (a : NDArray)
  | seq (l : List NDArray)
  deriving Repr, DecidableEq

/-- The grid-spacing input accepted by the `h` keyword: a scalar or a
list of per-axis spacings. -/
inductive HInput where
  | scalar (x : Int)
  | hlist (xs : List Int)
  deriving Repr, DecidableEq

/-- Modelled from the spec: `wrap_in_ndarray` (module `findiff.util`, not
under `src/`) normalizes the grid-spacing input "to a 1D numeric sequence"
(spec 4.1): a scalar becomes a one-element sequence, a sequence is kept. -/
def wrap_in_ndarray : HInput → List Int
  | .scalar x => [x]
  | .hlist xs => xs

/-- Modelled from the spec: the axis-differentiator factory
`findiff.diff.FinDiff` is an external collaborator (spec 1, 2, 6) not under
`src/`; only its constructor argument tuple is recorded here — axis index,
uniform spacing or coordinate arrays, derivative order (1 for the
first-derivative call sites, per spec 4.1; 2 at the Laplacian call site),
and the forwarded accuracy option. Its application is kept opaque and is a
parameter of the application functions below. -/
structure FinDiffSpec where
  axis : Nat
  spacing : Option Int
  coords : Option Coords
  order : Nat
  acc : Option Nat
  deriving Repr, DecidableEq

instance : Inhabited FinDiffSpec := ⟨⟨0, none, none, 1, none⟩⟩

/-- The keyword arguments accepted by `VectorOperator.__init__`:
optional `h`, optional `coords`, and extra options (accuracy) forwarded
unchanged to every per-axis differentiator construction. -/
structure Kwargs where
  h : Option HInput
  coords : Option Coords
  acc : Option Nat
  deriving Repr, DecidableEq

/-- The attributes a `VectorOperator` instance may carry after
construction; `none` models an attribute that was never assigned. -/
structure VOState where
  h : Option (List Int)
  ndims : Option Nat
  components : Option (List FinDiffSpec)
  deriving Repr, DecidableEq

/-- `VectorOperator.__get_dimension`: number of rows of a multi-axis
coordinate array, 1 for a single flat array, else the length of the
sequence. -/
def getDimension : Coords → Nat
  | .array a => if a.shape.length > 1 then a.shape.headD 0 else 1
  | .seq l => l.length

/-- `VectorOperator.__init__`: two independent `if` branches — the `h`
branch pops `h`, sets `ndims = len(h)` and builds one differentiator per
axis forwarding the remaining kwargs (which still hold `coords` when both
were supplied); the `coords` branch then overwrites `ndims` and
`components` from the coordinates. No branch raises. -/
def VectorOperator.init (kw : Kwargs) : VOState :=
  let s0 : VOState := ⟨none, none, none⟩
  let s1 : VOState :=
    match kw.h with
    | some hv =>
      let hs := wrap_in_ndarray hv
      { h := some hs
        ndims := some hs.length
        components := some ((List.range hs.length).map fun k =>
          { axis := k, spacing := some (hs.getD k 0), coords := kw.coords
            order := 1, acc := kw.acc }) }
    | none => s0
  match kw.coords with
  | some cs =>
    { s1 with
      ndims := some (getDimension cs)
      components := some ((List.range (getDimension cs)).map fun k =>
        { axis := k, spacing := none, coords := some cs
          order := 1, acc := kw.acc }) }
  | none => s1

/-- The exceptions the embedded code can raise. -/
inductive Err where
  | typeErr (msg : String)
  | valueErr (msg : String)
  | attributeErr
  | indexErr
  deriving Repr, DecidableEq

/-- `Gradient.__init__`: just the base-class constructor, raising
nothing. -/
def Gradient.init (kw : Kwargs) : Except Err VOState :=
  .ok (VectorOperator.init kw)

/-- `Divergence.__init__`: just the base-class constructor, raising
nothing. -/
def Divergence.init (kw : Kwargs) : Except Err VOState :=
  .ok (VectorOperator.init kw)

/-- `Curl.__init__`: base-class constructor, then `self.ndims` is read
(`AttributeError` when no mode set it) and a `ValueError` is raised unless
it equals 3. -/
def Curl.init (kw : Kwargs) : Except Err VOState :=
  match (VectorOperator.init kw).ndims with
  | none => .error .attributeErr
  | some n =>
    if n ≠ 3 then
      .error (.valueErr "Curl operation is only defined in 3 dimensions.")
    else
      .ok (VectorOperator.init kw)

/-- A python value passed to an operator application: a numpy array, a
python list of arrays, or anything else. -/
inductive PyField where
  | arr (a : NDArray)
  | pylist (l : List NDArray)
  | other
  deriving Repr, DecidableEq

/-- `self.components[k](x)`: index into the differentiator list
(python `IndexError` when out of range) and apply the opaque
differentiator interpretation `interpE`. -/
def applyComp (interpE : FinDiffSpec → NDArray → Except Err NDArray)
    (comps : List FinDiffSpec) (k : Nat) (x : NDArray) : Except Err NDArray :=
  match comps[k]? with
  | none => .error .indexErr
  | some sp => interpE sp x

/-- The vector-field shape guard of `Divergence.__call__` and
`Curl.__call__`, exactly as written in the source:
`if len(f.shape) != ndims + 1 and f.shape[0] != ndims: raise ValueError`.
The second conjunct is only evaluated when the first is true
(python `and` short-circuits), and reading `f.shape[0]` on a 0-d array
raises `IndexError`. Returns the raised exception, if any. -/
def vecShapeCheck (n : Nat) (a : NDArray) (msg : String) : Option Err :=
  if a.shape.length ≠ n + 1 then
    match a.shape with
    | [] => some .indexErr
    | s0 :: _ => if s0 ≠ n then some (.valueErr msg) else none
  else
    none

/-- `Gradient.__call__`: reject non-arrays with `TypeError`, reject
arrays whose rank differs from `ndims` with `ValueError`, then append
`components[k](f)` for `k = 0 .. ndims - 1` to a python list and return
`np.array` of it. -/
def Gradient.call (interpE : FinDiffSpec → NDArray → Except Err NDArray)
    (s : VOState) (f : PyField) : Except Err NDArray :=
  match f with
  | .arr a =>
    match s.ndims with
    | none => .error .attributeErr
    | some n =>
      if a.shape.length ≠ n then
        .error (.valueErr "Gradients can only be applied to scalar functions")
      else
        match s.components with
        | none => .error .attributeErr
        | some comps => do
          let results ← (List.range n).foldlM
            (fun acc k => do
              let y ← applyComp interpE comps k a
              .ok (acc ++ [y]))
            ([] : List NDArray)
          .ok (NDArray.stack results)
  | _ => .error (.typeErr "Function to differentiate must be numpy.ndarray")

/-- `Divergence.__call__`: non-array non-list inputs raise `TypeError`;
a python list raises `AttributeError` at `f.shape`; then the (buggy)
vector-field guard runs, `result = np.zeros(f.shape[1:])` and
`result += components[k](f[k])` for `k = 0 .. ndims - 1`. -/
def Divergence.call (interpE : FinDiffSpec → NDArray → Except Err NDArray)
    (s : VOState) (f : PyField) : Except Err NDArray :=
  match f with
  | .other =>
    .error (.typeErr
      "Function to differentiate must be numpy.ndarray or list of numpy.ndarrays")
  | .pylist _ => .error .attributeErr
  | .arr a =>
    match s.ndims with
    | none => .error .attributeErr
    | some n =>
      match vecShapeCheck n a
          "Divergence can only be applied to vector functions of the same dimension" with
      | some e => .error e
      | none =>
        match s.components with
        | none => .error .attributeErr
        | some comps =>
          (List.range n).foldlM
            (fun acc k => do
              let y ← applyComp interpE comps k (a.getComp k)
              .ok (acc.add y))
            (NDArray.zeros a.shape.tail)

/-- `Curl.__call__`: the same input guards as Divergence (with Curl's
message), then `result = np.zeros(f.shape)` and the three in-place slice
updates of the antisymmetric curl pattern, each right-hand side evaluated
left to right. -/
def Curl.call (interpE : FinDiffSpec → NDArray → Except Err NDArray)
    (s : VOState) (f : PyField) : Except Err NDArray :=
  match f with
  | .other =>
    .error (.typeErr
      "Function to differentiate must be numpy.ndarray or list of numpy.ndarrays")
  | .pylist _ => .error .attributeErr
  | .arr a =>
    match s.ndims with
    | none => .error .attributeErr
    | some n =>
      match vecShapeCheck n a
          "Curl can only be applied to vector functions of the three dimensions" with
      | some e => .error e
      | none =>
        match s.components with
        | none => .error .attributeErr
        | some comps => do
          let r0 := NDArray.zeros a.shape
          let y01 ← applyComp interpE comps 1 (a.getComp 2)
          let y02 ← applyComp interpE comps 2 (a.getComp 1)
          let r1 := r0.setComp 0 ((r0.getComp 0).add (y01.sub y02))
          let y11 ← applyComp interpE comps 2 (a.getComp 0)
          let y12 ← applyComp interpE comps 0 (a.getComp 2)
          let r2 := r1.setComp 1 ((r1.getComp 1).add (y11.sub y12))
          let y21 ← applyComp interpE comps 0 (a.getComp 1)
          let y22 ← applyComp interpE comps 1 (a.getComp 0)
          .ok (r2.setComp 2 ((r2.getComp 2).add (y21.sub y22)))

/-- The single attribute of a `Laplacian` instance: its per-axis
second-derivative differentiators. -/
structure LapState where
  parts : List FinDiffSpec
  deriving Repr, DecidableEq

/-- `Laplacian.__init__`: wrap `h`, then build
`FinDiff((k, h[k], 2), acc=acc)` for every `k < len(h)`. -/
def Laplacian.init (h : HInput) (acc : Nat) : LapState :=
  let hs := wrap_in_ndarray h
  ⟨(List.range hs.length).map fun k =>
    { axis := k, spacing := some (hs.getD k 0), coords := none
      order := 2, acc := some acc }⟩

/-- The python default value of the `h` parameter of
`Laplacian.__init__`: `[1.]`. -/
def Laplacian.defaultH : HInput := .hlist [1]

/-- The python default value of the `acc` parameter of
`Laplacian.__init__`: `2`. -/
def Laplacian.defaultAcc : Nat := 2

/-- `Laplacian.__call__`: `laplace_f = np.zeros_like(f)`, then
`laplace_f += part(f)` over the parts in order; no input validation of
its own. -/
def Laplacian.call (interpE : FinDiffSpec → NDArray → Except Err NDArray)
    (s : LapState) (f : NDArray) : Except Err NDArray :=
  s.parts.foldlM
    (fun acc p => do
      let y ← interpE p f
      .ok (acc.add y))
    (NDArray.zerosLike f)

/-!
Heap-level view of the application functions, used to state the frame
property: numpy arrays live in a store of buffers, the caller's field is a
reference into it, `np.zeros` / `np.zeros_like` / `np.array` allocate
fresh buffers, and the in-place `+=` statements write through the result
reference. The field buffer is re-read from the store at every use, so
the embedding would observe any aliasing between the writes and the
caller's array.
-/

/-- A heap of array buffers; references are indices into it. -/
abbrev Store := List NDArray

/-- Dereference a buffer. -/
def Store.get (σ : Store) (r : Nat) : NDArray :=
  List.getD σ r default

/-- Overwrite a buffer in place. -/
def Store.write (σ : Store) (r : Nat) (a : NDArray) : Store :=
  List.set σ r a

/-- Allocate a fresh buffer, returning the new store and the new
reference. -/
def Store.alloc (σ : Store) (a : NDArray) : Store × Nat :=
  (σ ++ [a], List.length σ)

/-- `Gradient.__call__` on the heap: the input array is read through its
reference; the only heap effect is allocating the stacked result. -/
def Gradient.callStore (interpE : FinDiffSpec → NDArray → Except Err NDArray)
    (s : VOState) (σ : Store) (fr : Nat) : Except Err (VOState × Store × Nat) :=
  match s.ndims with
  | none => .error .attributeErr
  | some n =>
    if (Store.get σ fr).shape.length ≠ n then
      .error (.valueErr "Gradients can only be applied to scalar functions")
    else
      match s.components with
      | none => .error .attributeErr
      | some comps => do
        let results ← (List.range n).foldlM
          (fun acc k => do
            let y ← applyComp interpE comps k (Store.get σ fr)
            .ok (acc ++ [y]))
          ([] : List NDArray)
        let (σ1, rr) := Store.alloc σ (NDArray.stack results)
        .ok (s, σ1, rr)

/-- `Divergence.__call__` on the heap: allocates the zero result buffer,
then in every loop iteration re-reads `f[k]` and the result buffer from
the current store and writes the accumulated sum back through the result
reference. -/
def Divergence.callStore (interpE : FinDiffSpec → NDArray → Except Err NDArray)
    (s : VOState) (σ : Store) (fr : Nat) : Except Err (VOState × Store × Nat) :=
  match s.ndims with
  | none => .error .attributeErr
  | some n =>
    match vecShapeCheck n (Store.get σ fr)
        "Divergence can only be applied to vector functions of the same dimension" with
    | some e => .error e
    | none =>
      match s.components with
      | none => .error .attributeErr
      | some comps => do
        let (σ1, rr) := Store.alloc σ (NDArray.zeros (Store.get σ fr).shape.tail)
        let σ2 ← (List.range n).foldlM
          (fun σc k => do
            let y ← applyComp interpE comps k ((Store.get σc fr).getComp k)
            .ok (Store.write σc rr ((Store.get σc rr).add y)))
          σ1
        .ok (s, σ2, rr)

/-- `Curl.__call__` on the heap: allocates the zero result buffer, then
performs the three in-place slice updates, re-reading the field
components and the result buffer from the current store each time. -/
def Curl.callStore (interpE : FinDiffSpec → NDArray → Except Err NDArray)
    (s : VOState) (σ : Store) (fr : Nat) : Except Err (VOState × Store × Nat) :=
  match s.ndims with
  | none => .error .attributeErr
  | some n =>
    match vecShapeCheck n (Store.get σ fr)
        "Curl can only be applied to vector functions of the three dimensions" with
    | some e => .error e
    | none =>
      match s.components with
      | none => .error .attributeErr
      | some comps => do
        let (σ1, rr) := Store.alloc σ (NDArray.zeros (Store.get σ fr).shape)
        let y01 ← applyComp interpE comps 1 ((Store.get σ1 fr).getComp 2)
        let y02 ← applyComp interpE comps 2 ((Store.get σ1 fr).getComp 1)
        let σ2 := Store.write σ1 rr
          ((Store.get σ1 rr).setComp 0
            (((Store.get σ1 rr).getComp 0).add (y01.sub y02)))
        let y11 ← applyComp interpE comps 2 ((Store.get σ2 fr).getComp 0)
        let y12 ← applyComp interpE comps 0 ((Store.get σ2 fr).getComp 2)
        let σ3 := Store.write σ2 rr
          ((Store.get σ2 rr).setComp 1
            (((Store.get σ2 rr).getComp 1).add (y11.sub y12)))
        let y21 ← applyComp interpE comps 0 ((Store.get σ3 fr).getComp 1)
        let y22 ← applyComp interpE comps 1 ((Store.get σ3 fr).getComp 0)
        let σ4 := Store.write σ3 rr
          ((Store.get σ3 rr).setComp 2
            (((Store.get σ3 rr).getComp 2).add (y21.sub y22)))
        .ok (s, σ4, rr)

/-- `Laplacian.__call__` on the heap: allocates `np.zeros_like(f)` and
accumulates `part(f)` into it in place, re-reading `f` each iteration. -/
def Laplacian.callStore (interpE : FinDiffSpec → NDArray → Except Err NDArray)
    (s : LapState) (σ : Store) (fr : Nat) : Except Err (LapState × Store × Nat) :=
  let (σ1, rr) := Store.alloc σ (NDArray.zerosLike (Store.get σ fr))
  (do
    let σ2 ← s.parts.foldlM
      (fun σc p => do
        let y ← interpE p (Store.get σc fr)
        .ok (Store.write σc rr ((Store.get σc rr).add y)))
      σ1
    .ok (s, σ2, rr))

/-! Shared helper lemmas. -/

theorem zipWith_add_replicate_zero (l : List Int) :
    ∀ n, l.length = n → List.zipWith (· + ·) (List.replicate n (0 : Int)) l = l := by
  induction l with
  | nil => intro n h; subst h; rfl
  | cons x xs ih =>
    intro n h
    subst h
    simp only [List.length_cons, List.replicate_succ, List.zipWith_cons_cons, zero_add]
    rw [ih xs.length rfl]

theorem NDArray.add_shape (a b : NDArray) : (a.add b).shape = a.shape := rfl

theorem NDArray.sub_shape (a b : NDArray) : (a.sub b).shape = a.shape := rfl

theorem NDArray.setComp_shape (a : NDArray) (k : Nat) (v : NDArray) :
    (a.setComp k v).shape = a.shape := by
  rcases a with ⟨sh, d⟩
  cases sh <;> rfl

theorem NDArray.zeros_shape (s : List Nat) : (NDArray.zeros s).shape = s := rfl

/-- A left-to-right `foldlM` over `Except` in which every step succeeds
computes the corresponding pure `foldl`. -/
theorem foldlM_ok_of_forall {α β : Type} (g : β → α → Except Err β) (g' : β → α → β)
    (l : List α) (h : ∀ x ∈ l, ∀ acc, g acc x = .ok (g' acc x)) :
    ∀ b, l.foldlM g b = .ok (l.foldl g' b) := by
  induction l with
  | nil => intro b; rfl
  | cons x xs ih =>
    intro b
    rw [List.foldlM_cons, h x (List.mem_cons_self x xs) b]
    show xs.foldlM g (g' b x) = _
    rw [ih (fun y hy acc => h y (List.mem_cons_of_mem x hy) acc), List.foldl_cons]

/-- Accumulating sums into an array never changes its shape. -/
theorem foldl_add_shape {α : Type} (l : List α) (g : α → NDArray) (b : NDArray) :
    (l.foldl (fun acc x => acc.add (g x)) b).shape = b.shape := by
  induction l generalizing b with
  | nil => rfl
  | cons x xs ih => rw [List.foldl_cons, ih]; rfl

/-- An invariant preserved by every successful step of a `foldlM` over
stores holds of the final store. -/
theorem foldlM_store_invariant {α : Type} (P : Store → Prop)
    (g : Store → α → Except Err Store) (l : List α)
    (hstep : ∀ σc x, P σc → ∀ σn, g σc x = .ok σn → P σn) :
    ∀ σ0, P σ0 → ∀ σf, l.foldlM g σ0 = .ok σf → P σf := by
  induction l with
  | nil =>
    intro σ0 h0 σf hf
    cases hf
    exact h0
  | cons x xs ih =>
    intro σ0 h0 σf hf
    rw [List.foldlM_cons] at hf
    cases hg : g σ0 x with
    | error e => rw [hg] at hf; cases hf
    | ok σ1 =>
      rw [hg] at hf
      exact ih σ1 (hstep σ0 x h0 σ1 hg) σf hf

theorem Store.get_append (σ : Store) (a : NDArray) (fr : Nat) (h : fr < σ.length) :
    Store.get (σ ++ [a]) fr = Store.get σ fr := by
  simp [Store.get, List.getD, List.getElem?_append_left h]

theorem Store.get_write_ne (σ : Store) (rr : Nat) (a : NDArray) (fr : Nat) (h : fr ≠ rr) :
    Store.get (Store.write σ rr a) fr = Store.get σ fr := by
  simp [Store.get, Store.write, List.getD, List.getElem?_set_ne (fun he => h he.symm)]

theorem Store.length_write (σ : Store) (rr : Nat) (a : NDArray) :
    (Store.write σ rr a).length = σ.length := by
  simp [Store.write]

/-- A concrete shape-preserving differentiator interpretation, used to
evaluate the embedded operators on closed inputs. -/
def idInterp : FinDiffSpec → NDArray → Except Err NDArray := fun _ a => .ok a

/-- A successful bind came from a successful first computation. -/
theorem bind_ok_inv {α β : Type} (e : Except Err α) (k : α → Except Err β) (v : β)
    (h : (e >>= k) = .ok v) : ∃ y, e = .ok y ∧ k y = .ok v := by
  cases e with
  | error e' => exact Except.noConfusion h
  | ok y => exact ⟨y, rfl, h⟩

/-- Componentwise inversion of an equality of successful triples. -/
theorem ok_triple_inv {α β γ : Type} (a a' : α) (b b' : β) (c c' : γ)
    (h : (Except.ok (a, b, c) : Except Err (α × β × γ)) = .ok (a', b', c')) :
    a = a' ∧ b = b' ∧ c = c' := by
  injection h with h'
  exact ⟨congrArg Prod.fst h', congrArg (fun t => t.2.1) h',
    congrArg (fun t => t.2.2) h'⟩

/-- Binding a successful `Except` computation runs the continuation. -/
theorem exceptBind_ok {α β : Type} (y : α) (g : α → Except Err β) :
    (Except.ok y : Except Err α) >>= g = g y := rfl

/-- Reading a leading-axis slice of a three-component array whose data is
laid out as three contiguous segments extracts the matching segment. -/
theorem getComp_three (rest : List Nat) (u0 u1 u2 : List Int)
    (h0 : u0.length = rest.prod) (h1 : u1.length = rest.prod)
    (h2 : u2.length = rest.prod) :
    NDArray.getComp ⟨3 :: rest, u0 ++ (u1 ++ u2)⟩ 0 = ⟨rest, u0⟩ ∧
    NDArray.getComp ⟨3 :: rest, u0 ++ (u1 ++ u2)⟩ 1 = ⟨rest, u1⟩ ∧
    NDArray.getComp ⟨3 :: rest, u0 ++ (u1 ++ u2)⟩ 2 = ⟨rest, u2⟩ := by
  refine ⟨?_, ?_, ?_⟩
  · show (⟨rest, ((u0 ++ (u1 ++ u2)).drop (0 * rest.prod)).take rest.prod⟩ : NDArray) = _
    rw [Nat.zero_mul, List.drop_zero, List.take_left' h0]
  · show (⟨rest, ((u0 ++ (u1 ++ u2)).drop (1 * rest.prod)).take rest.prod⟩ : NDArray) = _
    rw [Nat.one_mul, List.drop_left' h0, List.take_left' h1]
  · show (⟨rest, ((u0 ++ (u1 ++ u2)).drop (2 * rest.prod)).take rest.prod⟩ : NDArray) = _
    rw [show 2 * rest.prod = rest.prod + rest.prod by omega,
      ← List.drop_drop, List.drop_left' h0, List.drop_left' h1,
      List.take_of_length_le (le_of_eq h2)]

/-- Writing a leading-axis slice of a three-component array whose data is
laid out as three contiguous segments replaces the matching segment. -/
theorem setComp_three (rest : List Nat) (u0 u1 u2 : List Int) (v : NDArray)
    (h0 : u0.length = rest.prod) (h1 : u1.length = rest.prod)
    (h2 : u2.length = rest.prod) :
    NDArray.setComp ⟨3 :: rest, u0 ++ (u1 ++ u2)⟩ 0 v
      = ⟨3 :: rest, v.data ++ (u1 ++ u2)⟩ ∧
    NDArray.setComp ⟨3 :: rest, u0 ++ (u1 ++ u2)⟩ 1 v
      = ⟨3 :: rest, u0 ++ (v.data ++ u2)⟩ ∧
    NDArray.setComp ⟨3 :: rest, u0 ++ (u1 ++ u2)⟩ 2 v
      = ⟨3 :: rest, u0 ++ (u1 ++ v.data)⟩ := by
  refine ⟨?_, ?_, ?_⟩
  · show (⟨3 :: rest, (u0 ++ (u1 ++ u2)).take (0 * rest.prod) ++ v.data ++
      (u0 ++ (u1 ++ u2)).drop ((0 + 1) * rest.prod)⟩ : NDArray) = _
    rw [Nat.zero_mul, List.take_zero, Nat.zero_add, Nat.one_mul,
      List.drop_left' h0, List.nil_append]
  · show (⟨3 :: rest, (u0 ++ (u1 ++ u2)).take (1 * rest.prod) ++ v.data ++
      (u0 ++ (u1 ++ u2)).drop ((1 + 1) * rest.prod)⟩ : NDArray) = _
    rw [Nat.one_mul, List.take_left' h0,
      show (1 + 1) * rest.prod = rest.prod + rest.prod by omega,
      ← List.drop_drop, List.drop_left' h0, List.drop_left' h1, List.append_assoc]
  · show (⟨3 :: rest, (u0 ++ (u1 ++ u2)).take (2 * rest.prod) ++ v.data ++
      (u0 ++ (u1 ++ u2)).drop ((2 + 1) * rest.prod)⟩ : NDArray) = _
    rw [show 2 * rest.prod = u0.length + rest.prod by omega,
      List.take_append, List.take_left' h1,
      show (2 + 1) * rest.prod = rest.prod + (rest.prod + rest.prod) by omega,
      ← List.drop_drop, List.drop_left' h0,
      ← List.drop_drop, List.drop_left' h1,
      List.drop_eq_nil_of_le (le_of_eq h2), List.append_nil, List.append_assoc]

/-- Rebuilding an array from a known shape and its own data is the
identity. -/
theorem eta_shape (x : NDArray) (rest : List Nat) (h : x.shape = rest) :
    (⟨rest, x.data⟩ : NDArray) = x := by
  rcases x with ⟨sh, da⟩
  simp only at h
  subst h
  rfl

/-- Adding an array into a zero-filled buffer of the same size yields its
data. -/
theorem add_zero_buffer (rest : List Nat) (x : NDArray)
    (hx : x.data.length = rest.prod) :
    NDArray.add ⟨rest, List.replicate rest.prod 0⟩ x = ⟨rest, x.data⟩ := by
  show (⟨rest, List.zipWith (· + ·) (List.replicate rest.prod 0) x.data⟩ : NDArray) = _
  rw [zipWith_add_replicate_zero x.data rest.prod hx]

/-! Claim theorems. -/

/-- C1 (counterexample): constructing a `Gradient` with neither `h` nor
`coords` does not raise `ConfigurationError` (or anything else):
construction succeeds and merely leaves `ndims` and `components`
unset. -/
theorem C1_counterexample :
    Gradient.init ⟨none, none, none⟩ = .ok ⟨none, none, none⟩ := rfl

/-- C1 (amended): `VectorOperator` construction performs no exclusivity
validation and never raises: for every keyword configuration, `Gradient`
and `Divergence` construction succeeds; with neither `h` nor `coords` the
instance is left with `ndims` and `components` unset, and with both
supplied the coordinate branch overwrites the spacing branch, leaving the
coordinate-mode dimensionality and differentiators. -/
theorem C1_no_configuration_validation (kw : Kwargs) :
    Gradient.init kw = .ok (VectorOperator.init kw) ∧
    Divergence.init kw = .ok (VectorOperator.init kw) ∧
    (kw.h = none → kw.coords = none →
      VectorOperator.init kw = ⟨none, none, none⟩) ∧
    (∀ hv cs, kw.h = some hv → kw.coords = some cs →
      (VectorOperator.init kw).ndims = some (getDimension cs) ∧
      (VectorOperator.init kw).components =
        some ((List.range (getDimension cs)).map fun k =>
          ⟨k, none, some cs, 1, kw.acc⟩)) := by
  refine ⟨rfl, rfl, ?_, ?_⟩
  · intro hh hc
    simp [VectorOperator.init, hh, hc]
  · intro hv cs hh hc
    constructor <;> simp [VectorOperator.init, hh, hc]

/-- C1 (witness for the amended claim): a both-modes configuration whose
coordinate description is a single per-axis sequence ends up with the
coordinate-inferred dimensionality. -/
theorem C1_no_configuration_validation_witness :
    (VectorOperator.init
      ⟨some (.hlist [1, 1]), some (.seq [⟨[2], [0, 0]⟩]), none⟩).ndims = some 1 :=
  ((C1_no_configuration_validation _).2.2.2
    (.hlist [1, 1]) (.seq [⟨[2], [0, 0]⟩]) rfl rfl).1

/-- C2 (code bug): the vector-field guard of `Divergence.__call__` joins
its two failure conditions with `and`, so a field whose rank is
`ndims + 1` but whose leading-axis length differs from `ndims` is
accepted: a Divergence over 2 axes applied to a 3-component field of
2-dimensional components raises nothing and returns a computed array. -/
theorem C2_guard_misses_mismatched_field :
    (([3, 2, 2] : List Nat).headD 0 ≠ 2) ∧
    Divergence.call idInterp (VectorOperator.init ⟨some (.hlist [1, 1]), none, none⟩)
      (.arr ⟨[3, 2, 2], List.replicate 12 0⟩) = .ok ⟨[2, 2], [0, 0, 0, 0]⟩ :=
  ⟨by decide, rfl⟩

/-- C3: with `coords` supplied, `ndims` is inferred by
`__get_dimension` — number of rows of a multi-axis array, 1 for a flat
array, length of a per-axis sequence — and exactly `ndims`
differentiators are built, one per axis `0 .. ndims - 1`. -/
theorem C3_coords_dimension_inference (kw : Kwargs) (cs : Coords)
    (hc : kw.coords = some cs) :
    (VectorOperator.init kw).ndims = some (getDimension cs) ∧
    (∃ comps, (VectorOperator.init kw).components = some comps ∧
      comps.length = getDimension cs ∧
      ∀ k, k < getDimension cs →
        comps[k]? = some ⟨k, none, some cs, 1, kw.acc⟩) ∧
    (∀ a, cs = .array a → 1 < a.shape.length → getDimension cs = a.shape.headD 0) ∧
    (∀ a, cs = .array a → a.shape.length = 1 → getDimension cs = 1) ∧
    (∀ l, cs = .seq l → getDimension cs = l.length) := by
  obtain ⟨oh, oc, oacc⟩ := kw
  simp only at hc
  subst hc
  refine ⟨?_, ⟨(List.range (getDimension cs)).map fun k => ⟨k, none, some cs, 1, oacc⟩,
    ?_, ?_, ?_⟩, ?_, ?_, ?_⟩
  · cases oh <;> simp [VectorOperator.init]
  · cases oh <;> simp [VectorOperator.init]
  · simp
  · intro k hk
    simp [List.getElem?_range hk]
  · intro a ha hlen
    subst ha
    simp [getDimension, hlen]
  · intro a ha hlen
    subst ha
    simp [getDimension, hlen]
  · intro l hl
    subst hl
    rfl

/-- C3 (witness): a coordinate array with two rows yields `ndims = 2`. -/
theorem C3_coords_dimension_inference_witness :
    (VectorOperator.init
      ⟨none, some (.array ⟨[2, 4], List.replicate 8 0⟩), none⟩).ndims = some 2 :=
  (C3_coords_dimension_inference
    ⟨none, some (.array ⟨[2, 4], List.replicate 8 0⟩), none⟩
    (.array ⟨[2, 4], List.replicate 8 0⟩) rfl).1

/-- C4: `Curl` construction succeeds exactly when the inferred
dimensionality is 3, and any configuration inferring `ndims ≠ 3` raises
the dimensionality `ValueError`. -/
theorem C4_curl_dimensionality_guard (kw : Kwargs) :
    ((∃ s, Curl.init kw = .ok s) ↔ (VectorOperator.init kw).ndims = some 3) ∧
    (∀ n, (VectorOperator.init kw).ndims = some n → n ≠ 3 →
      Curl.init kw =
        .error (.valueErr "Curl operation is only defined in 3 dimensions.")) := by
  constructor
  · constructor
    · rintro ⟨s, hs⟩
      unfold Curl.init at hs
      cases hn : (VectorOperator.init kw).ndims with
      | none => rw [hn] at hs; cases hs
      | some n =>
        rw [hn] at hs
        by_cases h3 : n = 3
        · subst h3; rfl
        · simp [h3] at hs
    · intro hn
      refine ⟨VectorOperator.init kw, ?_⟩
      unfold Curl.init
      rw [hn]
      simp
  · intro n hn h3
    unfold Curl.init
    rw [hn]
    simp [h3]

/-- C4 (witness): `Curl(h=[1.0, 1.0])` infers 2 axes and raises the
dimensionality error. -/
theorem C4_curl_dimensionality_guard_witness :
    Curl.init ⟨some (.hlist [1, 1]), none, none⟩ =
      .error (.valueErr "Curl operation is only defined in 3 dimensions.") :=
  (C4_curl_dimensionality_guard _).2 2 rfl (by decide)

/-- Appending one element per step is the same as appending the mapped
list. -/
theorem foldl_append_singleton {α β : Type} (f : α → β) (l : List α) :
    ∀ acc : List β, l.foldl (fun acc x => acc ++ [f x]) acc = acc ++ l.map f := by
  induction l with
  | nil => intro acc; simp
  | cons x xs ih => intro acc; simp [ih]

/-- A `do` step that binds a successful computation and wraps the result
succeeds with the wrapped value. -/
theorem bind_ok_step {β : Type} (e : Except Err NDArray) (y : NDArray)
    (g : NDArray → β) (he : e = .ok y) :
    (do
      let v ← e
      Except.ok (g v) : Except Err β) = .ok (g y) := by
  rw [he]
  rfl

/-- Evaluation of the `Curl.__call__` body on a well-shaped 3-component
field, with the six differentiator outputs abstracted: the three in-place
slice updates fill the three segments of the freshly allocated zero
result with the antisymmetric combinations. -/
theorem curl_call_eval (interpE : FinDiffSpec → NDArray → Except Err NDArray)
    (s : VOState) (comps : List FinDiffSpec) (rest : List Nat) (dat : List Int)
    (hn : s.ndims = some 3) (hcomps : s.components = some comps)
    (hrest : rest.length = 3)
    (Y01 Y02 Y11 Y12 Y21 Y22 : NDArray)
    (e01 : applyComp interpE comps 1 (NDArray.getComp ⟨3 :: rest, dat⟩ 2) = .ok Y01)
    (e02 : applyComp interpE comps 2 (NDArray.getComp ⟨3 :: rest, dat⟩ 1) = .ok Y02)
    (e11 : applyComp interpE comps 2 (NDArray.getComp ⟨3 :: rest, dat⟩ 0) = .ok Y11)
    (e12 : applyComp interpE comps 0 (NDArray.getComp ⟨3 :: rest, dat⟩ 2) = .ok Y12)
    (e21 : applyComp interpE comps 0 (NDArray.getComp ⟨3 :: rest, dat⟩ 1) = .ok Y21)
    (e22 : applyComp interpE comps 1 (NDArray.getComp ⟨3 :: rest, dat⟩ 0) = .ok Y22)
    (l01 : Y01.data.length = rest.prod) (l02 : Y02.data.length = rest.prod)
    (l11 : Y11.data.length = rest.prod) (l12 : Y12.data.length = rest.prod)
    (l21 : Y21.data.length = rest.prod) (l22 : Y22.data.length = rest.prod) :
    Curl.call interpE s (.arr ⟨3 :: rest, dat⟩) =
      .ok ⟨3 :: rest, (Y01.sub Y02).data ++
        ((Y11.sub Y12).data ++ (Y21.sub Y22).data)⟩ := by
  have l0 : (Y01.sub Y02).data.length = rest.prod := by
    simp [NDArray.sub, List.length_zipWith, l01, l02]
  have l1 : (Y11.sub Y12).data.length = rest.prod := by
    simp [NDArray.sub, List.length_zipWith, l11, l12]
  have l2 : (Y21.sub Y22).data.length = rest.prod := by
    simp [NDArray.sub, List.length_zipWith, l21, l22]
  have hzl : (List.replicate rest.prod (0 : Int)).length = rest.prod :=
    List.length_replicate _ _
  have hzeros : NDArray.zeros ((3 : Nat) :: rest) = ⟨3 :: rest,
      List.replicate rest.prod 0 ++
        (List.replicate rest.prod 0 ++ List.replicate rest.prod 0)⟩ := by
    show (⟨3 :: rest, List.replicate ((3 : Nat) :: rest).prod 0⟩ : NDArray) = _
    rw [show ((3 : Nat) :: rest).prod = rest.prod + (rest.prod + rest.prod) by
        simp [List.prod_cons]; ring,
      List.replicate_add, List.replicate_add]
  have hcheck : vecShapeCheck 3 ⟨3 :: rest, dat⟩
      "Curl can only be applied to vector functions of the three dimensions"
      = none := by
    unfold vecShapeCheck
    simp [hrest]
  have g0 := (getComp_three rest _ _ _ hzl hzl hzl).1
  have a0 := add_zero_buffer rest (Y01.sub Y02) l0
  have s0 := (setComp_three rest _ _ _ (⟨rest, (Y01.sub Y02).data⟩ : NDArray)
    hzl hzl hzl).1
  have g1 := (getComp_three rest _ _ _ l0 hzl hzl).2.1
  have a1 := add_zero_buffer rest (Y11.sub Y12) l1
  have s1 := (setComp_three rest _ _ _ (⟨rest, (Y11.sub Y12).data⟩ : NDArray)
    l0 hzl hzl).2.1
  have g2 := (getComp_three rest _ _ _ l0 l1 hzl).2.2
  have a2 := add_zero_buffer rest (Y21.sub Y22) l2
  have s2 := (setComp_three rest _ _ _ (⟨rest, (Y21.sub Y22).data⟩ : NDArray)
    l0 l1 hzl).2.2
  unfold Curl.call
  simp only [hn, hcheck, hcomps, e01, e02, e11, e12, e21, e22, exceptBind_ok,
    hzeros, g0, a0, s0, g1, a1, s1, g2, a2, s2]

/-- C5: for a 3-component vector field satisfying the shape precondition
(rank 4, leading-axis length 3), `Curl.__call__` returns an array `r` of
the same shape as `f` with `r[0] = d1(f[2]) - d2(f[1])`,
`r[1] = d2(f[0]) - d0(f[2])`, `r[2] = d0(f[1]) - d1(f[0])`, where `dk` is
the axis-`k` differentiator. -/
theorem C5_curl_formula (interpE : FinDiffSpec → NDArray → Except Err NDArray)
    (d : Nat → NDArray → NDArray) (s : VOState) (comps : List FinDiffSpec)
    (a : NDArray) (rest : List Nat)
    (hn : s.ndims = some 3) (hcomps : s.components = some comps)
    (hshape : a.shape = 3 :: rest) (hrest : rest.length = 3) (hwf : a.wf)
    (hA : ∀ k x, k < 3 → applyComp interpE comps k x = .ok (d k x))
    (hdshape : ∀ k x, (d k x).shape = x.shape)
    (hdlen : ∀ k x, (d k x).data.length = x.data.length) :
    ∃ r, Curl.call interpE s (.arr a) = .ok r ∧
      r.shape = a.shape ∧ r.shape.length = 4 ∧ r.shape.headD 0 = 3 ∧
      r.getComp 0 = (d 1 (a.getComp 2)).sub (d 2 (a.getComp 1)) ∧
      r.getComp 1 = (d 2 (a.getComp 0)).sub (d 0 (a.getComp 2)) ∧
      r.getComp 2 = (d 0 (a.getComp 1)).sub (d 1 (a.getComp 0)) := by
  obtain ⟨sh, dat⟩ := a
  simp only [NDArray.wf] at hwf
  simp only at hshape
  subst hshape
  have hdat : dat.length = 3 * rest.prod := by
    rw [hwf]
    simp [List.prod_cons]
  have hglen : ∀ k, k < 3 →
      ((⟨3 :: rest, dat⟩ : NDArray).getComp k).data.length = rest.prod := by
    intro k hk
    have hmin : ((⟨3 :: rest, dat⟩ : NDArray).getComp k).data.length
        = min rest.prod (dat.length - k * rest.prod) := by
      show ((dat.drop (k * rest.prod)).take rest.prod).length = _
      rw [List.length_take, List.length_drop]
    rw [hmin, hdat]
    interval_cases k <;> omega
  have hgshape : ∀ k, ((⟨3 :: rest, dat⟩ : NDArray).getComp k).shape = rest :=
    fun _ => rfl
  have hdglen : ∀ j k, k < 3 →
      (d j ((⟨3 :: rest, dat⟩ : NDArray).getComp k)).data.length = rest.prod := by
    intro j k hk
    rw [hdlen, hglen k hk]
  have l0 : ((d 1 ((⟨3 :: rest, dat⟩ : NDArray).getComp 2)).sub
      (d 2 ((⟨3 :: rest, dat⟩ : NDArray).getComp 1))).data.length = rest.prod := by
    simp [NDArray.sub, List.length_zipWith, hdglen 1 2 (by omega),
      hdglen 2 1 (by omega)]
  have l1 : ((d 2 ((⟨3 :: rest, dat⟩ : NDArray).getComp 0)).sub
      (d 0 ((⟨3 :: rest, dat⟩ : NDArray).getComp 2))).data.length = rest.prod := by
    simp [NDArray.sub, List.length_zipWith, hdglen 2 0 (by omega),
      hdglen 0 2 (by omega)]
  have l2 : ((d 0 ((⟨3 :: rest, dat⟩ : NDArray).getComp 1)).sub
      (d 1 ((⟨3 :: rest, dat⟩ : NDArray).getComp 0))).data.length = rest.prod := by
    simp [NDArray.sub, List.length_zipWith, hdglen 0 1 (by omega),
      hdglen 1 0 (by omega)]
  have hcall := curl_call_eval interpE s comps rest dat hn hcomps hrest
    (d 1 ((⟨3 :: rest, dat⟩ : NDArray).getComp 2))
    (d 2 ((⟨3 :: rest, dat⟩ : NDArray).getComp 1))
    (d 2 ((⟨3 :: rest, dat⟩ : NDArray).getComp 0))
    (d 0 ((⟨3 :: rest, dat⟩ : NDArray).getComp 2))
    (d 0 ((⟨3 :: rest, dat⟩ : NDArray).getComp 1))
    (d 1 ((⟨3 :: rest, dat⟩ : NDArray).getComp 0))
    (hA 1 _ (by omega)) (hA 2 _ (by omega)) (hA 2 _ (by omega))
    (hA 0 _ (by omega)) (hA 0 _ (by omega)) (hA 1 _ (by omega))
    (hdglen 1 2 (by omega)) (hdglen 2 1 (by omega)) (hdglen 2 0 (by omega))
    (hdglen 0 2 (by omega)) (hdglen 0 1 (by omega)) (hdglen 1 0 (by omega))
  refine ⟨_, hcall, rfl, by simp [hrest], rfl, ?_, ?_, ?_⟩
  · rw [(getComp_three rest _ _ _ l0 l1 l2).1]
    have hs0 : ((d 1 ((⟨3 :: rest, dat⟩ : NDArray).getComp 2)).sub
        (d 2 ((⟨3 :: rest, dat⟩ : NDArray).getComp 1))).shape = rest := by
      show (d 1 ((⟨3 :: rest, dat⟩ : NDArray).getComp 2)).shape = rest
      rw [hdshape, hgshape]
    exact eta_shape _ rest hs0
  · rw [(getComp_three rest _ _ _ l0 l1 l2).2.1]
    have hs1 : ((d 2 ((⟨3 :: rest, dat⟩ : NDArray).getComp 0)).sub
        (d 0 ((⟨3 :: rest, dat⟩ : NDArray).getComp 2))).shape = rest := by
      show (d 2 ((⟨3 :: rest, dat⟩ : NDArray).getComp 0)).shape = rest
      rw [hdshape, hgshape]
    exact eta_shape _ rest hs1
  · rw [(getComp_three rest _ _ _ l0 l1 l2).2.2]
    have hs2 : ((d 0 ((⟨3 :: rest, dat⟩ : NDArray).getComp 1)).sub
        (d 1 ((⟨3 :: rest, dat⟩ : NDArray).getComp 0))).shape = rest := by
      show (d 0 ((⟨3 :: rest, dat⟩ : NDArray).getComp 1)).shape = rest
      rw [hdshape, hgshape]
    exact eta_shape _ rest hs2

/-- C5 (witness): a 3-axis curl applied to a `(3, 1, 1, 1)`-shaped
vector field with the identity interpretation for the differentiators
succeeds. -/
theorem C5_curl_formula_witness :
    (Curl.call idInterp (VectorOperator.init ⟨some (.hlist [1, 1, 1]), none, none⟩)
      (.arr ⟨[3, 1, 1, 1], [10, 20, 30]⟩)).isOk = true := by
  obtain ⟨r, hr, -, -, -, -, -, -⟩ := C5_curl_formula idInterp (fun _ x => x)
    (VectorOperator.init ⟨some (.hlist [1, 1, 1]), none, none⟩)
    [⟨0, some 1, none, 1, none⟩, ⟨1, some 1, none, 1, none⟩,
      ⟨2, some 1, none, 1, none⟩]
    ⟨[3, 1, 1, 1], [10, 20, 30]⟩ [1, 1, 1] rfl rfl rfl rfl rfl
    (by intro k x hk; interval_cases k <;> rfl) (fun _ _ => rfl) (fun _ _ => rfl)
  rw [hr]
  rfl

/-- C6: for a scalar field of rank `ndims`, `Gradient.__call__` returns
the ordered stack of the per-axis differentiator results, an array of
rank `ndims + 1` whose leading axis has length `ndims`. -/
theorem C6_gradient_stacks_components
    (interpE : FinDiffSpec → NDArray → Except Err NDArray)
    (d : Nat → NDArray → NDArray) (s : VOState) (n : Nat)
    (comps : List FinDiffSpec) (a : NDArray)
    (hn : s.ndims = some n) (hcomps : s.components = some comps)
    (hrank : a.shape.length = n)
    (hA : ∀ k x, k < n → applyComp interpE comps k x = .ok (d k x))
    (hshape : ∀ k x, (d k x).shape = x.shape) :
    Gradient.call interpE s (.arr a) =
      .ok (NDArray.stack ((List.range n).map fun k => d k a)) ∧
    (NDArray.stack ((List.range n).map fun k => d k a)).shape = n :: a.shape ∧
    (NDArray.stack ((List.range n).map fun k => d k a)).shape.length = n + 1 ∧
    (NDArray.stack ((List.range n).map fun k => d k a)).shape.headD 0 = n := by
  have hstack : (NDArray.stack ((List.range n).map fun k => d k a)).shape
      = n :: a.shape := by
    cases n with
    | zero =>
      have hnil : a.shape = [] := List.length_eq_zero.mp hrank
      rw [hnil]
      rfl
    | succ m =>
      rw [List.range_succ_eq_map]
      simp [NDArray.stack, hshape]
  refine ⟨?_, hstack, by rw [hstack]; simp [hrank], by rw [hstack]; rfl⟩
  unfold Gradient.call
  simp only [hn, hcomps]
  rw [if_neg (fun hne => hne hrank)]
  have hfold := foldlM_ok_of_forall
    (fun acc k => do
      let y ← applyComp interpE comps k a
      .ok (acc ++ [y]))
    (fun acc k => acc ++ [d k a])
    (List.range n)
    (fun k hk acc => bind_ok_step _ _ _ (hA k a (List.mem_range.mp hk)))
    ([] : List NDArray)
  rw [hfold]
  show Except.ok (NDArray.stack
    (List.foldl (fun acc k => acc ++ [d k a]) [] (List.range n))) = _
  rw [foldl_append_singleton (fun k => d k a) (List.range n) []]
  rfl

/-- C6 (witness): a 2-axis gradient of a 2-dimensional field, with the
identity interpretation standing in for the differentiators. -/
theorem C6_gradient_stacks_components_witness :
    Gradient.call idInterp (VectorOperator.init ⟨some (.hlist [1, 1]), none, none⟩)
      (.arr ⟨[2, 2], [1, 2, 3, 4]⟩) =
      .ok (NDArray.stack [⟨[2, 2], [1, 2, 3, 4]⟩, ⟨[2, 2], [1, 2, 3, 4]⟩]) :=
  (C6_gradient_stacks_components idInterp (fun _ x => x)
    (VectorOperator.init ⟨some (.hlist [1, 1]), none, none⟩) 2
    [⟨0, some 1, none, 1, none⟩, ⟨1, some 1, none, 1, none⟩]
    ⟨[2, 2], [1, 2, 3, 4]⟩ rfl rfl rfl
    (by
      intro k x hk
      interval_cases k <;> rfl)
    (fun _ _ => rfl)).1

/-- C7: for a proper vector field (rank `ndims + 1`, leading-axis length
`ndims`), `Divergence.__call__` starts from a zero array shaped like one
component of `f` and accumulates `components[k](f[k])` left to right over
`k = 0 .. ndims - 1`, returning the sum (of component shape). -/
theorem C7_divergence_accumulation
    (interpE : FinDiffSpec → NDArray → Except Err NDArray)
    (d : Nat → NDArray → NDArray) (s : VOState) (n : Nat)
    (comps : List FinDiffSpec) (a : NDArray) (rest : List Nat)
    (hn : s.ndims = some n) (hcomps : s.components = some comps)
    (hshape : a.shape = n :: rest) (hrest : rest.length = n)
    (hA : ∀ k x, k < n → applyComp interpE comps k x = .ok (d k x)) :
    Divergence.call interpE s (.arr a) =
      .ok ((List.range n).foldl (fun acc k => acc.add (d k (a.getComp k)))
        (NDArray.zeros a.shape.tail)) ∧
    (NDArray.zeros a.shape.tail).shape = (a.getComp 0).shape ∧
    ((List.range n).foldl (fun acc k => acc.add (d k (a.getComp k)))
        (NDArray.zeros a.shape.tail)).shape = rest := by
  have htail : a.shape.tail = rest := by rw [hshape]; rfl
  have hcomp0 : (a.getComp 0).shape = rest := by
    rcases a with ⟨sh, dat⟩
    simp only at hshape
    subst hshape
    rfl
  refine ⟨?_, by rw [htail, NDArray.zeros_shape, hcomp0], ?_⟩
  · have hcheck : vecShapeCheck n a
        "Divergence can only be applied to vector functions of the same dimension"
        = none := by
      unfold vecShapeCheck
      rw [if_neg]
      rw [hshape]
      simp [hrest]
    unfold Divergence.call
    simp only [hn, hcheck, hcomps]
    exact foldlM_ok_of_forall
      (fun acc k => do
        let y ← applyComp interpE comps k (a.getComp k)
        .ok (acc.add y))
      (fun acc k => acc.add (d k (a.getComp k)))
      (List.range n)
      (fun k hk acc => bind_ok_step (applyComp interpE comps k (a.getComp k))
        (d k (a.getComp k)) (fun y => acc.add y)
        (hA k (a.getComp k) (List.mem_range.mp hk)))
      (NDArray.zeros a.shape.tail)
  · rw [foldl_add_shape, NDArray.zeros_shape, htail]

/-- C7 (witness): a 2-axis divergence of a `(2, 2, 2)`-shaped vector
field, with the identity interpretation for the differentiators. -/
theorem C7_divergence_accumulation_witness :
    Divergence.call idInterp (VectorOperator.init ⟨some (.hlist [1, 1]), none, none⟩)
      (.arr ⟨[2, 2, 2], [1, 2, 3, 4, 5, 6, 7, 8]⟩) = .ok ⟨[2, 2], [6, 8, 10, 12]⟩ := by
  have h := (C7_divergence_accumulation idInterp (fun _ x => x)
    (VectorOperator.init ⟨some (.hlist [1, 1]), none, none⟩) 2
    [⟨0, some 1, none, 1, none⟩, ⟨1, some 1, none, 1, none⟩]
    ⟨[2, 2, 2], [1, 2, 3, 4, 5, 6, 7, 8]⟩ [2, 2] rfl rfl rfl rfl
    (by
      intro k x hk
      interval_cases k <;> rfl)).1
  rw [h]
  rfl

/-- C8: `Laplacian.__init__` builds exactly one `order = 2`
differentiator per entry of the wrapped `h` at the given accuracy (with
python defaults `h = [1.]` and `acc = 2`), and `Laplacian.__call__`
accumulates `part(f)` into `np.zeros_like(f)` left to right, returning an
array of the shape of `f`. -/
theorem C8_laplacian_construction_and_accumulation (h : HInput) (acc : Nat)
    (interpE : FinDiffSpec → NDArray → Except Err NDArray) :
    (Laplacian.init h acc).parts.length = (wrap_in_ndarray h).length ∧
    (∀ k, k < (wrap_in_ndarray h).length →
      (Laplacian.init h acc).parts[k]? =
        some ⟨k, some ((wrap_in_ndarray h).getD k 0), none, 2, some acc⟩) ∧
    (Laplacian.init Laplacian.defaultH Laplacian.defaultAcc).parts =
      [⟨0, some 1, none, 2, some 2⟩] ∧
    (∀ (f : NDArray) (dp : FinDiffSpec → NDArray → NDArray),
      (∀ p ∈ (Laplacian.init h acc).parts, interpE p f = .ok (dp p f)) →
      Laplacian.call interpE (Laplacian.init h acc) f =
        .ok ((Laplacian.init h acc).parts.foldl (fun r p => r.add (dp p f))
          (NDArray.zerosLike f)) ∧
      ((Laplacian.init h acc).parts.foldl (fun r p => r.add (dp p f))
          (NDArray.zerosLike f)).shape = f.shape) := by
  refine ⟨by simp [Laplacian.init], ?_, rfl, ?_⟩
  · intro k hk
    simp [Laplacian.init, List.getElem?_range hk]
  · intro f dp hall
    constructor
    · exact foldlM_ok_of_forall
        (fun r p => do
          let y ← interpE p f
          .ok (r.add y))
        (fun r p => r.add (dp p f))
        (Laplacian.init h acc).parts
        (fun p hp r => bind_ok_step (interpE p f) (dp p f) (fun y => r.add y)
          (hall p hp))
        (NDArray.zerosLike f)
    · rw [foldl_add_shape]
      rfl

/-- C8 (witness): the default Laplacian applied to a length-3 field with
the identity interpretation. -/
theorem C8_laplacian_construction_and_accumulation_witness :
    Laplacian.call idInterp (Laplacian.init Laplacian.defaultH Laplacian.defaultAcc)
      ⟨[3], [1, 2, 3]⟩ = .ok ⟨[3], [1, 2, 3]⟩ := by
  have h := ((C8_laplacian_construction_and_accumulation
    Laplacian.defaultH Laplacian.defaultAcc idInterp).2.2.2
    ⟨[3], [1, 2, 3]⟩ (fun _ x => x) (fun _ _ => rfl)).1
  rw [h]
  rfl

/-- C10: `Laplacian.__call__` performs no input validation of its own:
for every field and every part interpretation, if each part application
succeeds the call succeeds (whatever the rank of `f`), and every error it
returns is an error returned by one of the per-axis differentiators. -/
theorem C10_laplacian_no_input_validation
    (interpE : FinDiffSpec → NDArray → Except Err NDArray)
    (s : LapState) (f : NDArray) :
    ((∀ p ∈ s.parts, (interpE p f).isOk = true) →
      (Laplacian.call interpE s f).isOk = true) ∧
    (∀ e, Laplacian.call interpE s f = .error e →
      ∃ p ∈ s.parts, interpE p f = .error e) := by
  have key : ∀ (l : List FinDiffSpec) (b : NDArray),
      ((∀ p ∈ l, (interpE p f).isOk = true) →
        (l.foldlM (fun (r : NDArray) (p : FinDiffSpec) => do
          let y ← interpE p f
          Except.ok (r.add y)) b).isOk = true) ∧
      (∀ e, l.foldlM (fun (r : NDArray) (p : FinDiffSpec) => do
          let y ← interpE p f
          Except.ok (r.add y)) b = (.error e : Except Err NDArray) →
        ∃ p ∈ l, interpE p f = .error e) := by
    intro l
    induction l with
    | nil => exact fun b => ⟨fun _ => rfl, fun e he => by cases he⟩
    | cons p ps ih =>
      intro b
      constructor
      · intro hall
        rw [List.foldlM_cons]
        cases hp : interpE p f with
        | error e =>
          have hcontra := hall p (List.mem_cons_self p ps)
          rw [hp] at hcontra
          exact Bool.noConfusion hcontra
        | ok y =>
          exact (ih (b.add y)).1 fun q hq => hall q (List.mem_cons_of_mem p hq)
      · intro e he
        rw [List.foldlM_cons] at he
        cases hp : interpE p f with
        | error e' =>
          rw [hp] at he
          have he' : (Except.error e' : Except Err NDArray) = .error e := he
          injection he' with hee
          exact ⟨p, List.mem_cons_self p ps, by rw [hp, hee]⟩
        | ok y =>
          rw [hp] at he
          have he' : ps.foldlM (fun r q => do
              let z ← interpE q f
              Except.ok (r.add z)) (b.add y) = .error e := he
          obtain ⟨q, hq, hqe⟩ := (ih (b.add y)).2 e he'
          exact ⟨q, List.mem_cons_of_mem p hq, hqe⟩
  exact key s.parts (NDArray.zerosLike f)

/-- C10 (witness): the default Laplacian applied to a 0-dimensional
array (rank 0, unlike any scalar field of the grid) still succeeds when
the parts succeed. -/
theorem C10_laplacian_no_input_validation_witness :
    (Laplacian.call idInterp (Laplacian.init (.hlist [1]) 2) ⟨[], [7]⟩).isOk = true :=
  (C10_laplacian_no_input_validation idInterp
    (Laplacian.init (.hlist [1]) 2) ⟨[], [7]⟩).1 (fun _ _ => rfl)

/-- The accumulation loop of the heap-level Divergence writes only at
the result reference, so any other buffer is untouched. -/
theorem divStore_fold_frame (interpE : FinDiffSpec → NDArray → Except Err NDArray)
    (comps : List FinDiffSpec) (σ : Store) (fr n : Nat)
    (hne : fr ≠ σ.length) (σ0 : Store)
    (h0 : Store.get σ0 fr = Store.get σ fr) (σf : Store)
    (hfold : (List.range n).foldlM (fun σc k => do
        let y ← applyComp interpE comps k ((Store.get σc fr).getComp k)
        Except.ok (Store.write σc σ.length
          ((Store.get σc σ.length).add y))) σ0 = .ok σf) :
    Store.get σf fr = Store.get σ fr := by
  refine foldlM_store_invariant (fun σc => Store.get σc fr = Store.get σ fr)
    _ (List.range n) ?_ σ0 h0 σf hfold
  intro σc k hc σn hg
  obtain ⟨y, hy, h4⟩ := bind_ok_inv _ _ _ hg
  have h5 : Store.write σc σ.length ((Store.get σc σ.length).add y) = σn := by
    injection h4
  rw [← h5, Store.get_write_ne _ _ _ _ hne]
  exact hc

/-- The accumulation loop of the heap-level Laplacian writes only at the
result reference, so any other buffer is untouched. -/
theorem lapStore_fold_frame (interpE : FinDiffSpec → NDArray → Except Err NDArray)
    (l : List FinDiffSpec) (σ : Store) (fr : Nat)
    (hne : fr ≠ σ.length) (σ0 : Store)
    (h0 : Store.get σ0 fr = Store.get σ fr) (σf : Store)
    (hfold : l.foldlM (fun σc p => do
        let y ← interpE p (Store.get σc fr)
        Except.ok (Store.write σc σ.length
          ((Store.get σc σ.length).add y))) σ0 = .ok σf) :
    Store.get σf fr = Store.get σ fr := by
  refine foldlM_store_invariant (fun σc => Store.get σc fr = Store.get σ fr)
    _ l ?_ σ0 h0 σf hfold
  intro σc p hc σn hg
  obtain ⟨y, hy, h4⟩ := bind_ok_inv _ _ _ hg
  have h5 : Store.write σc σ.length ((Store.get σc σ.length).add y) = σn := by
    injection h4
  rw [← h5, Store.get_write_ne _ _ _ _ hne]
  exact hc

/-- C9: none of the four application operations writes through the
caller-supplied field reference, and each returns the operator state it
was given: whenever the heap-level application succeeds, the buffer at
the field reference is unchanged and the operator state (`ndims` and the
differentiator sequence, or the Laplacian parts) is returned as-is. -/
theorem C9_apply_frame (interpE : FinDiffSpec → NDArray → Except Err NDArray)
    (s : VOState) (ls : LapState) (σ : Store) (fr : Nat) (hfr : fr < σ.length) :
    (∀ s' σ' rr, Gradient.callStore interpE s σ fr = .ok (s', σ', rr) →
      s' = s ∧ Store.get σ' fr = Store.get σ fr) ∧
    (∀ s' σ' rr, Divergence.callStore interpE s σ fr = .ok (s', σ', rr) →
      s' = s ∧ Store.get σ' fr = Store.get σ fr) ∧
    (∀ s' σ' rr, Curl.callStore interpE s σ fr = .ok (s', σ', rr) →
      s' = s ∧ Store.get σ' fr = Store.get σ fr) ∧
    (∀ ls' σ' rr, Laplacian.callStore interpE ls σ fr = .ok (ls', σ', rr) →
      ls' = ls ∧ Store.get σ' fr = Store.get σ fr) := by
  have hne : fr ≠ σ.length := Nat.ne_of_lt hfr
  refine ⟨?_, ?_, ?_, ?_⟩
  · intro s' σ' rr he
    unfold Gradient.callStore at he
    split at he
    · exact Except.noConfusion he
    · split at he
      · exact Except.noConfusion he
      · split at he
        · exact Except.noConfusion he
        · obtain ⟨results, hres, he⟩ := bind_ok_inv _ _ _ he
          obtain ⟨h1, h2, h3⟩ := ok_triple_inv _ _ _ _ _ _ he
          exact ⟨h1.symm, by rw [← h2]; exact Store.get_append σ _ fr hfr⟩
  · intro s' σ' rr he
    unfold Divergence.callStore at he
    split at he
    · exact Except.noConfusion he
    · split at he
      · exact Except.noConfusion he
      · split at he
        · exact Except.noConfusion he
        · obtain ⟨σ2, hfold, he⟩ := bind_ok_inv _ _ _ he
          obtain ⟨h1, h2, h3⟩ := ok_triple_inv _ _ _ _ _ _ he
          refine ⟨h1.symm, ?_⟩
          rw [← h2]
          exact divStore_fold_frame interpE _ σ fr _ hne _
            (Store.get_append σ _ fr hfr) σ2 hfold
  · intro s' σ' rr he
    unfold Curl.callStore at he
    split at he
    · exact Except.noConfusion he
    · split at he
      · exact Except.noConfusion he
      · split at he
        · exact Except.noConfusion he
        · obtain ⟨y01, h01, he⟩ := bind_ok_inv _ _ _ he
          obtain ⟨y02, h02, he⟩ := bind_ok_inv _ _ _ he
          obtain ⟨y11, h11, he⟩ := bind_ok_inv _ _ _ he
          obtain ⟨y12, h12, he⟩ := bind_ok_inv _ _ _ he
          obtain ⟨y21, h21, he⟩ := bind_ok_inv _ _ _ he
          obtain ⟨y22, h22, he⟩ := bind_ok_inv _ _ _ he
          obtain ⟨h1, h2, h3⟩ := ok_triple_inv _ _ _ _ _ _ he
          have frame3 : ∀ A B C : NDArray,
              Store.get (Store.write (Store.write (Store.write
                (σ ++ [NDArray.zeros (Store.get σ fr).shape])
                σ.length A) σ.length B) σ.length C) fr = Store.get σ fr := by
            intro A B C
            rw [Store.get_write_ne _ _ _ _ hne, Store.get_write_ne _ _ _ _ hne,
              Store.get_write_ne _ _ _ _ hne]
            exact Store.get_append σ _ fr hfr
          exact ⟨h1.symm, by rw [← h2]; exact frame3 _ _ _⟩
  · intro ls' σ' rr he
    unfold Laplacian.callStore at he
    obtain ⟨σ2, hfold, he⟩ := bind_ok_inv _ _ _ he
    obtain ⟨h1, h2, h3⟩ := ok_triple_inv _ _ _ _ _ _ he
    refine ⟨h1.symm, ?_⟩
    rw [← h2]
    exact lapStore_fold_frame interpE ls.parts σ fr hne _
      (Store.get_append σ _ fr hfr) σ2 hfold

/-- C9 (witness): applying the heap-level gradient of a 1-axis operator
to a store holding one field buffer leaves that buffer unchanged. -/
theorem C9_apply_frame_witness :
    Store.get [⟨[1], [5]⟩, ⟨[1, 1], [5]⟩] 0 = Store.get [(⟨[1], [5]⟩ : NDArray)] 0 :=
  ((C9_apply_frame idInterp (VectorOperator.init ⟨some (.hlist [1]), none, none⟩)
    (Laplacian.init (.hlist [1]) 2) [⟨[1], [5]⟩] 0 (by decide)).1
    (VectorOperator.init ⟨some (.hlist [1]), none, none⟩)
    [⟨[1], [5]⟩, ⟨[1, 1], [5]⟩] 1 rfl).2
